import Mathlib

/-!
Shallow embedding of the thumper lazy iterator-combinator library
(src/index.js) and verification of its specification.

JS values relevant to the library are modelled by `Val`.  Each
iterator-producing combinator is modelled in two phases mirroring the
source: a synchronous call phase (returning `Except ThumperError _`,
mirroring the `ensureIterator` guard that runs when the combinator is
invoked) and a suspended generator phase (a pure total function behind
`Unit →`, mirroring the generator body that runs only when the result is
pulled).  The generator bodies are given as list-level functions
(`...Gen`) from the list of elements the upstream iterator yields to the
list of elements the derived iterator yields.
-/

namespace Thumper

/-- Model of the JavaScript values the library manipulates.  Numbers are
modelled as integers (every value the contract exercises is integral);
`arr` models a JS array, the only iterable in this value universe. -/
inductive Val : Type where
  | undefined : Val
  | bool : Bool → Val
  | num : Int → Val
  | str : String → Val
  | arr : List Val → Val

/-- JS truthiness: `undefined`, `false`, `0` and `""` are falsy; every
array is truthy. -/
def truthy : Val → Bool
  | .undefined => false
  | .bool b => b
  | .num n => decide (n ≠ 0)
  | .str s => decide (s ≠ "")
  | .arr _ => true

/-- `isIterator` (src/index.js:1-11): `Symbol.iterator in possible` is
true exactly for arrays in this value universe; for primitive values the
`in` operator throws and the catch clause returns false. -/
def isIterator : Val → Bool
  | .arr _ => true
  | _ => false

/-- A thrown library error: its `code` field and `message` field. -/
structure ThumperError : Type where
  code : Nat
  message : String

/-- The `NotIterator` error class (src/index.js:13-16): `code = 1`,
`message = 'Value is not an iterator'`. -/
def NotIterator : ThumperError := ⟨1, "Value is not an iterator"⟩

/-- `ensureIterator` (src/index.js:18-22): throws `NotIterator` when the
value does not expose the iterator capability. -/
def ensureIterator (v : Val) : Except ThumperError Unit :=
  if isIterator v then Except.ok () else Except.error NotIterator

/-- The elements an iterable yields when traversed; meaningful once
`ensureIterator` has succeeded (arrays are the only iterables here). -/
def elems : Val → List Val
  | .arr xs => xs
  | _ => []

/-- JS array indexing: an out-of-bounds read produces `undefined`. -/
def jsIndex (xs : List Val) (i : Nat) : Val := (xs.get? i).getD .undefined

/-- JS strict equality `===` on primitive values.  Two arrays are `===`
only when they are the same object; object identity is not expressible in
a value model, and no claim exercises `eq`'s predicate, so distinct array
values compare unequal. -/
def jsEq : Val → Val → Bool
  | .undefined, .undefined => true
  | .bool a, .bool b => a == b
  | .num a, .num b => a == b
  | .str a, .str b => a == b
  | _, _ => false

/-- Generator body of `map` (src/index.js:41-45): yield `fn(item)` for
each upstream element, in order. -/
def mapGen (fn : α → β) : List α → List β
  | [] => []
  | x :: xs => fn x :: mapGen fn xs

/-- Generator body of `filter` (src/index.js:57-63). -/
def filterGen (pred : α → Bool) : List α → List α
  | [] => []
  | x :: xs => if pred x then x :: filterGen pred xs else filterGen pred xs

/-- Generator body of `filter_map` (src/index.js:78-85): computes
`predMap(item)` and yields the result (not the original element) iff the
result is truthy. -/
def filter_mapGen (predMap : Val → Val) : List Val → List Val
  | [] => []
  | x :: xs =>
    let result := predMap x
    if truthy result then result :: filter_mapGen predMap xs
    else filter_mapGen predMap xs

/-- Loop of `all` (src/index.js:101-107): early false on the first
failing element. -/
def allGen (pred : α → Bool) : List α → Bool
  | [] => true
  | x :: xs => if !(pred x) then false else allGen pred xs

/-- Loop of `some` (src/index.js:121-127): early true on the first
passing element. -/
def someGen (pred : α → Bool) : List α → Bool
  | [] => false
  | x :: xs => if pred x then true else someGen pred xs

/-- Generator body of `chain` (src/index.js:140-143):
`yield* iter1; yield* iter2`. -/
def chainGen (as bs : List α) : List α := as ++ bs

/-- Loop of `count` (src/index.js:168-171). -/
def countGen : List α → Nat
  | [] => 0
  | _ :: xs => countGen xs + 1

/-- Generator body of `takeWhile` (src/index.js:185-193).  The predicate
is modelled statefully (state type `σ`) because `take` passes a closure
over a mutable counter; a stateless predicate uses `σ = Unit`. -/
def takeWhileGen (pred : σ → α → σ × Bool) : σ → List α → List α
  | _, [] => []
  | s, x :: xs =>
    let r := pred s x
    if r.2 then x :: takeWhileGen pred r.1 xs else []

/-- `take` (src/index.js:203-213): delegates to `takeWhile` with the
counter predicate `() => { count++; return count < num + 1 }`. -/
def takeGen (num : Nat) (xs : List α) : List α :=
  takeWhileGen (fun count _ => (count + 1, decide (count + 1 < num + 1))) 0 xs

/-- Generator body of `skipWhile` (src/index.js:433-444): a `done` flag is
set at the first falsy predicate result; from then on every element is
yielded (the predicate is still invoked but can no longer cause a skip). -/
def skipWhileGen (pred : σ → α → σ × Bool) : σ → Bool → List α → List α
  | _, _, [] => []
  | s, d, x :: xs =>
    let r := pred s x
    if !d && r.2 then skipWhileGen pred r.1 d xs
    else x :: skipWhileGen pred r.1 (if !r.2 then true else d) xs

/-- `skipWhile` with a stateless predicate. -/
def skipWhilePure (pred : α → Bool) (xs : List α) : List α :=
  skipWhileGen (fun _ y => ((), pred y)) () false xs

/-- `skip` (src/index.js:455-464): `skipWhile` with the counter predicate
`() => { count++; return count <= num }`. -/
def skipGen (num : Nat) (xs : List α) : List α :=
  skipWhileGen (fun count _ => (count + 1, decide (count + 1 ≤ num))) 0 false xs

/-- One iteration of `cycle`'s generator loop (src/index.js:226-233):
reset the index when it passes the end of the backing buffer
(`i > item.length - 1`, computed over the integers — for an empty buffer
the bound is `-1`, so the index always resets to `0`), then yield
`item[i]` and increment. -/
def cycleNextV (buf : List Val) (i : Nat) : Val × Nat :=
  let j := if ((i : Int) > (buf.length : Int) - 1) then 0 else i
  (jsIndex buf j, j + 1)

/-- Value yielded by, and index after, the n-th advance of `cycle`'s
iterator over the materialized buffer `buf`. -/
def cycleStateV (buf : List Val) : Nat → Val × Nat
  | 0 => cycleNextV buf 0
  | n + 1 => cycleNextV buf (cycleStateV buf n).2

/-- Result of the n-th advance of `cycle`'s iterator: the generator body
is `while (true) { ...; yield item[i]; i++ }` with no return and no
break, so every advance yields a value (`Option.some`, i.e.
`done: false`); `Option.none` would model an exhausted advance and is
never produced. -/
def cycleAdvanceV (buf : List Val) (n : Nat) : Option Val :=
  Option.some (cycleStateV buf n).1

/-- Counter loop of `enumerate` (src/index.js:247-253). -/
def enumerateGenAux (i : Nat) : List Val → List Val
  | [] => []
  | x :: xs => Val.arr [x, Val.num (i : Int)] :: enumerateGenAux (i + 1) xs

/-- Generator body of `enumerate`: yields `[item, i]`, value first. -/
def enumerateGen (xs : List Val) : List Val := enumerateGenAux 0 xs

/-- `iter.next()` on the remainder of an iterator: `{value, done}`.  An
exhausted iterator reports `done: true` with `value: undefined`
(modelled as `Option.none`). -/
def nextGen : List β → Option β × Bool
  | [] => (Option.none, true)
  | b :: _ => (Option.some b, false)

/-- Loop of `eq_by` (src/index.js:272-280): walk iter1; for each element
pull `{value, done} = iter2Iter.next()` and return false if
`!pred(item, value) || done`; return true once iter1 exhausts.  The
predicate's second argument is an `Option β`: `none` models the JS
`undefined` it receives when iter2 is exhausted. -/
def eq_byGen (pred : α → Option β → Bool) : List α → List β → Bool
  | [], _ => true
  | a :: as, bs =>
    let r := nextGen bs
    if !(pred a r.1) || r.2 then false
    else eq_byGen pred as bs.tail

/-- The sequence of invocations `pred(item, value)` performed by
`eq_by`'s loop, in order.  The source evaluates `!pred(item, value)`
before `|| done`, so the predicate is invoked on every iteration the loop
reaches, including the one at which iter2 is already exhausted. -/
def eq_byCalls (pred : α → Option β → Bool) : List α → List β → List (α × Option β)
  | [], _ => []
  | a :: as, bs =>
    let r := nextGen bs
    (a, r.1) :: (if !(pred a r.1) || r.2 then [] else eq_byCalls pred as bs.tail)

/-- Generator body of `zip` (src/index.js:479-487): for each element of
iter1, yield it, then pull one element from iter2 and yield it iff iter2
has not exhausted.  When iter1 exhausts, the loop ends and the rest of
iter2 is never pulled. -/
def zipGen : List α → List α → List α
  | [], _ => []
  | a :: as, [] => a :: zipGen as []
  | a :: as, b :: bs => a :: b :: zipGen as bs

/-- Loop of `find` (src/index.js:298-302): first element passing the
predicate, `undefined` when none does (implicit JS return). -/
def findGen (pred : Val → Bool) : List Val → Val
  | [] => .undefined
  | x :: xs => if pred x then x else findGen pred xs

/-- Loop of `find_map` (src/index.js:314-319): first truthy
`predMap(item)`, `undefined` when none is truthy. -/
def find_mapGen (predMap : Val → Val) : List Val → Val
  | [] => .undefined
  | x :: xs =>
    let result := predMap x
    if truthy result then result else find_mapGen predMap xs

/-- Counter loop of `nth` (src/index.js:379-385). -/
def nthAux (index : Nat) (i : Nat) : List Val → Val
  | [] => .undefined
  | x :: xs => if i = index then x else nthAux index (i + 1) xs

/-- `nth`: element at the given 0-based position, `undefined` when the
iterator exhausts first. -/
def nthGen (index : Nat) (xs : List Val) : Val := nthAux index 0 xs

/-- Loop of `fold` (src/index.js:396-401). -/
def foldGen (fn : β → α → β) : β → List α → β
  | state, [] => state
  | state, x :: xs => foldGen fn (fn state x) xs

/-- Generator body of `scan` (src/index.js:414-420): yields each new
accumulator state, never the seed itself. -/
def scanGen (fn : β → α → β) : β → List α → List β
  | _, [] => []
  | state, x :: xs =>
    let s := fn state x
    s :: scanGen fn s xs

/-- Generator body of `flatMap` (src/index.js:331-341): one level of
flattening; a non-iterator result is yielded as a single element. -/
def flatMapGen (fn : Val → Val) : List Val → List Val
  | [] => []
  | x :: xs =>
    let result := fn x
    if isIterator result then elems result ++ flatMapGen fn xs
    else result :: flatMapGen fn xs

/-- Generator body of `tap` (src/index.js:361-365): `fn` is invoked for
its side effect (not modelled) and each element passes through
unchanged. -/
def tapGen (fn : Val → Val) : List Val → List Val
  | [] => []
  | x :: xs => x :: tapGen fn xs

/-- A JS function as `curry` sees it (src/index.js:24-30): a declared
parameter count (`fn.length`) and a variadic implementation receiving
the full argument list. -/
structure JSFun (A R : Type) where
  arity : Nat
  impl : List A → R

/-- One application of a curried wrapper (src/index.js:24-30).  The
wrapper's state is the list `pfx` of already-supplied arguments; a call
appends the newly supplied arguments `sfx` and either invokes the
function with exactly the concatenated arguments (when k ≥ n) or returns
a new, independent wrapper capturing the concatenation (when k < n). -/
def curryStep (fn : JSFun A R) (pfx sfx : List A) : R ⊕ List A :=
  let args := pfx ++ sfx
  if fn.arity ≤ args.length then Sum.inl (fn.impl args) else Sum.inr args

/-- Repeated application of a curried wrapper to a list of calls,
re-applying the same rule (`curry(fn)(...args, ...other)`) after each
partial application: the result once enough arguments arrive, `none`
while the wrapper is still awaiting arguments. -/
def curryRun (fn : JSFun A R) : List A → List (List A) → Option R
  | _, [] => Option.none
  | acc, call :: rest =>
    match curryStep fn acc call with
    | Sum.inl r => Option.some r
    | Sum.inr args => curryRun fn args rest

namespace JS

/-!
The combinator surface at the JS value level.  Each combinator performs
its `ensureIterator` guard(s) in the call phase; a lazy combinator then
returns its suspended generator behind `Unit →`.  The suspended phase is
a total function, so an error can only arise in the call phase — never
mid-traversal.
-/

/-- `map` (src/index.js:38-48). -/
def map (fn : Val → Val) (iter : Val) : Except ThumperError (Unit → List Val) :=
  match ensureIterator iter with
  | .error e => .error e
  | .ok _ => .ok fun _ => mapGen fn (elems iter)

/-- `filter` (src/index.js:54-66). -/
def filter (pred : Val → Bool) (iterator : Val) : Except ThumperError (Unit → List Val) :=
  match ensureIterator iterator with
  | .error e => .error e
  | .ok _ => .ok fun _ => filterGen pred (elems iterator)

/-- `filter_map` (src/index.js:74-88). -/
def filter_map (predMap : Val → Val) (iterator : Val) : Except ThumperError (Unit → List Val) :=
  match ensureIterator iterator with
  | .error e => .error e
  | .ok _ => .ok fun _ => filter_mapGen predMap (elems iterator)

/-- `chain` (src/index.js:135-146): both guards run at call time, iter1
first. -/
def chain (iter1 iter2 : Val) : Except ThumperError (Unit → List Val) :=
  match ensureIterator iter1, ensureIterator iter2 with
  | .error e, _ => .error e
  | _, .error e => .error e
  | .ok _, .ok _ => .ok fun _ => chainGen (elems iter1) (elems iter2)

/-- `collect` (src/index.js:153-157): eager spread into an array. -/
def collect (iter : Val) : Except ThumperError (List Val) :=
  match ensureIterator iter with
  | .error e => .error e
  | .ok _ => .ok (elems iter)

/-- `count` (src/index.js:165-174). -/
def count (iter : Val) : Except ThumperError Nat :=
  match ensureIterator iter with
  | .error e => .error e
  | .ok _ => .ok (countGen (elems iter))

/-- `takeWhile` (src/index.js:182-196); the predicate may close over
mutable state (state type `σ`), as `take`'s counter predicate does. -/
def takeWhile (pred : σ → Val → σ × Bool) (s : σ) (iter : Val) : Except ThumperError (Unit → List Val) :=
  match ensureIterator iter with
  | .error e => .error e
  | .ok _ => .ok fun _ => takeWhileGen pred s (elems iter)

/-- `take` (src/index.js:203-213): delegates to `takeWhile`; `take`
itself performs no guard. -/
def take (num : Nat) (iter : Val) : Except ThumperError (Unit → List Val) :=
  takeWhile (fun c _ => (c + 1, decide (c + 1 < num + 1))) 0 iter

/-- `cycle` (src/index.js:220-237): eagerly materializes via `collect`
(whose guard rejects non-iterators), then returns the infinite advance
function over the buffer. -/
def cycle (iter : Val) : Except ThumperError (Nat → Option Val) :=
  match collect iter with
  | .error e => .error e
  | .ok buf => .ok (cycleAdvanceV buf)

/-- `enumerate` (src/index.js:244-256). -/
def enumerate (iter : Val) : Except ThumperError (Unit → List Val) :=
  match ensureIterator iter with
  | .error e => .error e
  | .ok _ => .ok fun _ => enumerateGen (elems iter)

/-- `eq_by` (src/index.js:264-281): guards both arguments at call time,
then runs the eager comparison loop.  The predicate receives the JS value
`undefined` (`Val.undefined`) as second argument when iter2 is exhausted. -/
def eq_by (pred : Val → Val → Bool) (iter1 iter2 : Val) : Except ThumperError Bool :=
  match ensureIterator iter1, ensureIterator iter2 with
  | .error e, _ => .error e
  | _, .error e => .error e
  | .ok _, .ok _ =>
    .ok (eq_byGen (fun a b => pred a (b.getD Val.undefined)) (elems iter1) (elems iter2))

/-- `eq` (src/index.js:288): `eq_by` partially applied to strict
equality. -/
def eq (iter1 iter2 : Val) : Except ThumperError Bool :=
  eq_by jsEq iter1 iter2

/-- `find` (src/index.js:295-303). -/
def find (pred : Val → Bool) (iter : Val) : Except ThumperError Val :=
  match ensureIterator iter with
  | .error e => .error e
  | .ok _ => .ok (findGen pred (elems iter))

/-- `find_map` (src/index.js:311-320). -/
def find_map (predMap : Val → Val) (iter : Val) : Except ThumperError Val :=
  match ensureIterator iter with
  | .error e => .error e
  | .ok _ => .ok (find_mapGen predMap (elems iter))

/-- `flatMap` (src/index.js:328-344). -/
def flatMap (fn : Val → Val) (iter : Val) : Except ThumperError (Unit → List Val) :=
  match ensureIterator iter with
  | .error e => .error e
  | .ok _ => .ok fun _ => flatMapGen fn (elems iter)

/-- `flatten` (src/index.js:351): `flatMap` partially applied to the
identity. -/
def flatten (iter : Val) : Except ThumperError (Unit → List Val) :=
  flatMap (fun value => value) iter

/-- `tap` (src/index.js:358-369). -/
def tap (fn : Val → Val) (iter : Val) : Except ThumperError (Unit → List Val) :=
  match ensureIterator iter with
  | .error e => .error e
  | .ok _ => .ok fun _ => tapGen fn (elems iter)

/-- `nth` (src/index.js:376-386). -/
def nth (index : Nat) (iter : Val) : Except ThumperError Val :=
  match ensureIterator iter with
  | .error e => .error e
  | .ok _ => .ok (nthGen index (elems iter))

/-- `fold` (src/index.js:393-403). -/
def fold (fn : Val → Val → Val) (start : Val) (iter : Val) : Except ThumperError Val :=
  match ensureIterator iter with
  | .error e => .error e
  | .ok _ => .ok (foldGen fn start (elems iter))

/-- `scan` (src/index.js:411-423). -/
def scan (fn : Val → Val → Val) (start : Val) (iter : Val) : Except ThumperError (Unit → List Val) :=
  match ensureIterator iter with
  | .error e => .error e
  | .ok _ => .ok fun _ => scanGen fn start (elems iter)

/-- `skipWhile` (src/index.js:430-448); stateful predicate as in
`takeWhile`. -/
def skipWhile (pred : σ → Val → σ × Bool) (s : σ) (iter : Val) : Except ThumperError (Unit → List Val) :=
  match ensureIterator iter with
  | .error e => .error e
  | .ok _ => .ok fun _ => skipWhileGen pred s false (elems iter)

/-- `skip` (src/index.js:455-464): delegates to `skipWhile`; `skip`
itself performs no guard. -/
def skip (num : Nat) (iter : Val) : Except ThumperError (Unit → List Val) :=
  skipWhile (fun c _ => (c + 1, decide (c + 1 ≤ num))) 0 iter

/-- `zip` (src/index.js:471-490): both guards run at call time; the
identity-map wrapping of iter2 pulls nothing. -/
def zip (iter1 iter2 : Val) : Except ThumperError (Unit → List Val) :=
  match ensureIterator iter1, ensureIterator iter2 with
  | .error e, _ => .error e
  | _, .error e => .error e
  | .ok _, .ok _ => .ok fun _ => zipGen (elems iter1) (elems iter2)

/-- `all` (src/index.js:97-108). -/
def all (pred : Val → Bool) (iterator : Val) : Except ThumperError Bool :=
  match ensureIterator iterator with
  | .error e => .error e
  | .ok _ => .ok (allGen pred (elems iterator))

/-- `some` (src/index.js:117-128). -/
def some (pred : Val → Bool) (iterator : Val) : Except ThumperError Bool :=
  match ensureIterator iterator with
  | .error e => .error e
  | .ok _ => .ok (someGen pred (elems iterator))

end JS

/-! ## Theorems -/

theorem ensureIterator_of_not (v : Val) (h : isIterator v = false) :
    ensureIterator v = Except.error NotIterator := by
  simp [ensureIterator, h]

theorem ensureIterator_cases (v : Val) :
    ensureIterator v = Except.ok () ∨ ensureIterator v = Except.error NotIterator := by
  cases h : isIterator v
  · exact Or.inr (by simp [ensureIterator, h])
  · exact Or.inl (by simp [ensureIterator, h])

/-- Claim C1: `eq_by(pred, seq1, seq2)` returns false as soon as the
predicate fails on a pair or seq2 is exhausted while seq1 still produced
an element, and returns true once seq1 exhausts, even when seq2 still has
elements.  The loop result is `true` exactly when seq1 is no longer than
seq2 and the predicate passes on every aligned pair; in particular a
longer seq2 with a matching prefix compares equal, and the two examples
`eq_by((a,b)=>true, [1], [2]) = true`, `eq_by(()=>false, [1], [1]) = false`
hold. -/
theorem eq_by_asymmetric_spec :
    (∀ (α β : Type) (pred : α → Option β → Bool) (as : List α) (bs : List β),
      eq_byGen pred as bs = true ↔
        as.length ≤ bs.length ∧ ∀ p ∈ as.zip bs, pred p.1 (Option.some p.2) = true)
    ∧ eq_byGen (fun (_ : Nat) (_ : Option Nat) => true) [1] [2] = true
    ∧ eq_byGen (fun (_ : Nat) (_ : Option Nat) => false) [1] [1] = false := by
  refine ⟨?_, rfl, rfl⟩
  intro α β pred as bs
  induction as generalizing bs with
  | nil => simp [eq_byGen]
  | cons a as ih =>
    cases bs with
    | nil => simp [eq_byGen, nextGen]
    | cons b bs =>
      simp only [eq_byGen, nextGen, List.tail_cons]
      cases hp : pred a (Option.some b) with
      | false => simp [hp]
      | true => simp [hp, ih, Nat.succ_le_succ_iff]

/-- Claim C2: `zip` is a flat interleave: each element pulled from seq1 is
yielded, then one element is pulled from seq2 and yielded iff seq2 has not
exhausted; when seq2 exhausts early the remaining seq1 elements are
yielded alone, and when seq1 exhausts first the remaining seq2 elements
are discarded (the generator's loop ends without pulling them);
`zip([1,2],[3,4])` collects to `[1,3,2,4]`. -/
theorem zip_flat_interleave_spec :
    (∀ (α : Type) (a : α) (as : List α) (b : α) (bs : List α),
      zipGen (a :: as) (b :: bs) = a :: b :: zipGen as bs)
    ∧ (∀ (α : Type) (as : List α), zipGen as [] = as)
    ∧ (∀ (α : Type) (bs : List α), zipGen [] bs = [])
    ∧ zipGen [1, 2] [3, 4] = [1, 3, 2, 4] := by
  refine ⟨fun α a as b bs => rfl, ?_, fun α bs => rfl, rfl⟩
  intro α as
  induction as with
  | nil => rfl
  | cons a as ih => simpa [zipGen] using ih

theorem cycleNextV_nil (i : Nat) : cycleNextV [] i = (Val.undefined, 1) := by
  simp only [cycleNextV, jsIndex]
  rw [if_pos (by simp; omega)]
  rfl

/-- Claim C3, counterexample: `cycle` over an empty materialized buffer
does not yield "no elements"; its very first advance produces a value
(`done: false`), namely the JS value `undefined` read out of bounds from
the empty buffer. -/
theorem cycle_empty_produces_value_cex :
    cycleAdvanceV [] 0 = Option.some Val.undefined
    ∧ cycleAdvanceV [] 0 ≠ (Option.none : Option Val) := by
  constructor
  · simp [cycleAdvanceV, cycleStateV, cycleNextV_nil]
  · simp [cycleAdvanceV]

/-- Claim C3, amended: when `cycle` is applied to an exhausted-but-empty
iterable (empty materialized backing buffer), the resulting cycle is an
infinite sequence of the JS value `undefined`: every advance yields
`undefined` (the reset bound `item.length - 1` is `-1`, so the index
always resets to 0 and `item[0]` on the empty buffer reads `undefined`);
no error is raised. -/
theorem cycle_empty_undef_spec :
    JS.cycle (Val.arr []) = Except.ok (cycleAdvanceV [])
    ∧ ∀ n, cycleAdvanceV [] n = Option.some Val.undefined := by
  refine ⟨rfl, ?_⟩
  intro n
  cases n with
  | zero => simp [cycleAdvanceV, cycleStateV, cycleNextV_nil]
  | succ n => simp [cycleAdvanceV, cycleStateV, cycleNextV_nil]

/-- Claim C4, counterexample: a combinator given a non-iterator argument
raises the `NotIterator` error, whose message is the fixed string
`"Value is not an iterator"` — not `"Value is not a sequence"` as the
claim quotes it. -/
theorem notIterator_message_cex :
    JS.collect (Val.num 1) = Except.error NotIterator
    ∧ NotIterator.message = "Value is not an iterator"
    ∧ NotIterator.message ≠ "Value is not a sequence" := by
  refine ⟨rfl, rfl, ?_⟩
  decide

/-- Claim C4, amended: whenever a combinator is given a non-iterator
argument, the validation guard (`ensureIterator`, used by every
combinator accepting iterator arguments) raises the error of kind
`NotIterator` (the spec's `NotASequence`), carrying the stable numeric
code `1` and the fixed message `"Value is not an iterator"`. -/
theorem notIterator_error_spec (v : Val) (h : isIterator v = false) :
    ensureIterator v = Except.error NotIterator
    ∧ NotIterator.code = 1
    ∧ NotIterator.message = "Value is not an iterator" :=
  ⟨ensureIterator_of_not v h, rfl, rfl⟩

theorem notIterator_error_witness :
    ensureIterator (Val.num 1) = Except.error NotIterator
    ∧ NotIterator.code = 1
    ∧ NotIterator.message = "Value is not an iterator" :=
  notIterator_error_spec (Val.num 1) rfl

theorem takeWhileGen_counter (num : Nat) (c : Nat) (xs : List α) :
    takeWhileGen (fun count _ => (count + 1, decide (count + 1 < num + 1))) c xs
      = xs.take (num - c) := by
  induction xs generalizing c with
  | nil => simp [takeWhileGen]
  | cons x xs ih =>
    simp only [takeWhileGen, decide_eq_true_eq]
    by_cases h : c + 1 < num + 1
    · rw [if_pos h, ih]
      have hnc : num - c = (num - (c + 1)) + 1 := by omega
      rw [hnc, List.take_succ_cons]
    · rw [if_neg h]
      have hnc : num - c = 0 := by omega
      simp [hnc]

/-- Claim C6: collecting `take(n, s)` yields the first `min(n, length s)`
elements: the length is `min n (length s)`, `take 0` yields nothing, and
when `n` is at least the length every element is yielded. -/
theorem take_length_spec (α : Type) (n : Nat) (s : List α) :
    takeGen n s = s.take n
    ∧ (takeGen n s).length = min n s.length
    ∧ takeGen 0 s = []
    ∧ (s.length ≤ n → takeGen n s = s) := by
  have h : ∀ (m : Nat), takeGen m s = s.take m := by
    intro m
    unfold takeGen
    rw [takeWhileGen_counter]
    norm_num
  refine ⟨h n, by simp [h n], by simp [h 0], fun hle => ?_⟩
  rw [h n]
  exact List.take_of_length_le hle

theorem take_length_witness :
    takeGen 5 [1, 2, 3] = [1, 2, 3] ∧ (takeGen 2 [1, 2, 3]).length = min 2 3 :=
  ⟨(take_length_spec Nat 5 [1, 2, 3]).2.2.2 (by decide),
   (take_length_spec Nat 2 [1, 2, 3]).2.1⟩

theorem skipWhileGen_done (pred : σ → α → σ × Bool) (s : σ) (xs : List α) :
    skipWhileGen pred s true xs = xs := by
  induction xs generalizing s with
  | nil => rfl
  | cons x xs ih =>
    simp only [skipWhileGen]
    cases h : (pred s x).2 <;> simp [h, ih]

/-- Claim C7: `skipWhile(pred, seq)` skips the leading elements on which
the predicate is truthy, yields the first element on which it returns
false, and yields every element after that one unconditionally (the
`done` flag set at the first falsy result disables skipping for the rest
of the traversal, whatever the predicate returns); with a predicate true
on its first two calls and false thereafter, `skipWhile` over `[1,2,3]`
collects to `[3]`. -/
theorem skipWhile_spec :
    (∀ (α : Type) (pred : α → Bool) (t : List α) (x : α) (r : List α),
      (∀ y ∈ t, pred y = true) → pred x = false →
      skipWhilePure pred (t ++ x :: r) = x :: r)
    ∧ skipWhileGen (fun count (_ : Nat) => (count + 1, decide (count + 1 ≤ 2))) 0 false [1, 2, 3]
        = [3] := by
  refine ⟨?_, rfl⟩
  intro α pred t x r ht hx
  induction t with
  | nil =>
    simp only [List.nil_append, skipWhilePure, skipWhileGen, hx]
    simpa using skipWhileGen_done (fun _ y => ((), pred y)) () r
  | cons y t ih =>
    have hy : pred y = true := ht y (by simp)
    have ht' : ∀ z ∈ t, pred z = true := fun z hz => ht z (by simp [hz])
    simpa [skipWhilePure, skipWhileGen, hy] using ih ht'

theorem skipWhile_witness :
    skipWhilePure (fun y => decide (y < 3)) ([1, 2] ++ 3 :: []) = 3 :: [] :=
  skipWhile_spec.1 Nat (fun y => decide (y < 3)) [1, 2] 3 []
    (by intro y hy; fin_cases hy <;> decide) (by decide)

/-- Claim C8: `filter_map(predMap, seq)` computes `predMap(value)` for
each upstream element and yields the result — not the original element —
iff the result is truthy; elements whose mapped result is falsy
(including `0`, the empty string and `false`) are dropped, as the closed
examples show. -/
theorem filter_map_truthy_spec :
    (∀ (predMap : Val → Val) (s : List Val),
      filter_mapGen predMap s = (s.map predMap).filter truthy)
    ∧ filter_mapGen (fun v => v) [Val.num 0, Val.str "", Val.bool false, Val.num 2]
        = [Val.num 2]
    ∧ filter_mapGen (fun _ => Val.str "haha") [Val.num 1] = [Val.str "haha"] := by
  refine ⟨?_, rfl, rfl⟩
  intro predMap s
  induction s with
  | nil => rfl
  | cons x xs ih =>
    simp only [filter_mapGen, List.map_cons, List.filter_cons]
    cases h : truthy (predMap x) <;> simp [h, ih]

/-- Claim C9: the curried wrapper of a function of declared arity `n`,
holding already-supplied argument list `pfx` and called with `sfx`
(so `k = (pfx ++ sfx).length` total arguments): when `k ≥ n` it invokes
the function with exactly those `k` arguments, original-then-new in call
order, and returns its result; when `k < n` it returns a new wrapper
capturing the concatenation, to which the same rule is re-applied on the
next call.  Each partial application yields a state determined solely by
the concatenated argument lists (the model is pure: the original
wrapper's `pfx` is never mutated, so equal prefixes give independent,
interchangeable states). -/
theorem curry_spec (A R : Type) (fn : JSFun A R) (pfx sfx : List A) :
    (fn.arity ≤ (pfx ++ sfx).length →
      curryStep fn pfx sfx = Sum.inl (fn.impl (pfx ++ sfx)))
    ∧ ((pfx ++ sfx).length < fn.arity →
      curryStep fn pfx sfx = Sum.inr (pfx ++ sfx)
      ∧ ∀ rest, curryRun fn pfx (sfx :: rest) = curryRun fn (pfx ++ sfx) rest) := by
  constructor
  · intro h
    rw [List.length_append] at h
    simp [curryStep, h]
  · intro h
    rw [List.length_append] at h
    have hn : ¬ fn.arity ≤ pfx.length + sfx.length := by omega
    have hs : curryStep fn pfx sfx = Sum.inr (pfx ++ sfx) := by simp [curryStep, hn]
    exact ⟨hs, fun rest => by simp [curryRun, hs]⟩

theorem curry_witness :
    curryStep ⟨2, fun l => l.foldr HAdd.hAdd 0⟩ [1] [2] = Sum.inl 3
    ∧ curryStep ⟨2, fun l => l.foldr HAdd.hAdd 0⟩ ([] : List Nat) [1] = Sum.inr [1]
    ∧ curryRun ⟨2, fun l => l.foldr HAdd.hAdd 0⟩ ([] : List Nat) [[1], [2]]
        = curryRun ⟨2, fun l => l.foldr HAdd.hAdd 0⟩ [1] [[2]] :=
  ⟨(curry_spec Nat Nat ⟨2, fun l => l.foldr HAdd.hAdd 0⟩ [1] [2]).1 (by decide),
   ((curry_spec Nat Nat ⟨2, fun l => l.foldr HAdd.hAdd 0⟩ [] [1]).2 (by decide)).1,
   ((curry_spec Nat Nat ⟨2, fun l => l.foldr HAdd.hAdd 0⟩ [] [1]).2 (by decide)).2 [[2]]⟩

/-- Claim C10: when seq2 is strictly shorter than seq1 and the predicate
accepts every aligned pair, `eq_by` reaches the position at which seq2 is
exhausted while seq1 still produced an element, and there it still
invokes the predicate — with that seq1 element and `undefined`
(`Option.none`) as second argument, recorded as the final entry of the
call trace — before returning false: the source evaluates
`!pred(item, value)` before `|| done`, so exhaustion does not
short-circuit the predicate call. -/
theorem eq_by_pred_called_on_exhausted_spec
    (α β : Type) (pred : α → Option β → Bool) (as : List α) (bs : List β) (a : α)
    (hlen : bs.length < as.length)
    (ha : as.get? bs.length = Option.some a)
    (hpre : ∀ p ∈ as.zip bs, pred p.1 (Option.some p.2) = true) :
    eq_byCalls pred as bs
      = (as.zip bs).map (fun p => (p.1, Option.some p.2)) ++ [(a, (Option.none : Option β))]
    ∧ eq_byGen pred as bs = false := by
  revert hlen ha hpre
  induction bs generalizing as with
  | nil =>
    intro hlen ha _
    cases as with
    | nil => simp at hlen
    | cons a0 as =>
      simp only [List.length_nil] at ha
      have ha0 : a0 = a := by simpa using ha
      subst ha0
      simp [eq_byCalls, eq_byGen, nextGen]
  | cons b bs ih =>
    intro hlen ha hpre
    cases as with
    | nil => simp at hlen
    | cons a0 as =>
      have hp : pred a0 (Option.some b) = true := hpre (a0, b) (by simp)
      have h2 := ih as (by simpa using hlen) (by simpa using ha)
        (fun p hp' => hpre p (by simp [hp']))
      refine ⟨?_, ?_⟩
      · simp only [eq_byCalls, nextGen, List.zip_cons_cons, List.map_cons,
          List.cons_append, List.tail_cons]
        simp [hp, h2.1]
      · simp only [eq_byGen, nextGen, List.tail_cons]
        simp [hp, h2.2]

theorem eq_by_pred_called_on_exhausted_witness :
    eq_byCalls (fun (_ : Nat) (_ : Option Nat) => true) [10, 20] [5]
      = [(10, Option.some 5), (20, Option.none)]
    ∧ eq_byGen (fun (_ : Nat) (_ : Option Nat) => true) [10, 20] [5] = false :=
  eq_by_pred_called_on_exhausted_spec Nat Nat (fun _ _ => true) [10, 20] [5] 20
    (by decide) (by decide) (fun _ _ => rfl)

/-- Claim C5: every combinator taking one or more iterator arguments,
given any non-iterator value in an iterator position, fails with
`NotIterator` synchronously: the `Except.error` is the result of the
call phase itself, before any suspended generator (`Unit → _`) is
constructed and before any element of any input is pulled; the suspended
generator phases are total functions, so the error can never arise
lazily mid-traversal. -/
theorem eager_reject_spec (v : Val) (h : isIterator v = false) :
    (∀ fn, JS.map fn v = Except.error NotIterator)
    ∧ (∀ pred, JS.filter pred v = Except.error NotIterator)
    ∧ (∀ predMap, JS.filter_map predMap v = Except.error NotIterator)
    ∧ (∀ pred, JS.all pred v = Except.error NotIterator)
    ∧ (∀ pred, JS.some pred v = Except.error NotIterator)
    ∧ (∀ w, JS.chain v w = Except.error NotIterator)
    ∧ (∀ w, JS.chain w v = Except.error NotIterator)
    ∧ JS.collect v = Except.error NotIterator
    ∧ JS.count v = Except.error NotIterator
    ∧ (∀ (σ : Type) (pred : σ → Val → σ × Bool) (s : σ),
        JS.takeWhile pred s v = Except.error NotIterator)
    ∧ (∀ num, JS.take num v = Except.error NotIterator)
    ∧ JS.cycle v = Except.error NotIterator
    ∧ JS.enumerate v = Except.error NotIterator
    ∧ (∀ pred w, JS.eq_by pred v w = Except.error NotIterator)
    ∧ (∀ pred w, JS.eq_by pred w v = Except.error NotIterator)
    ∧ (∀ w, JS.eq v w = Except.error NotIterator)
    ∧ (∀ w, JS.eq w v = Except.error NotIterator)
    ∧ (∀ pred, JS.find pred v = Except.error NotIterator)
    ∧ (∀ predMap, JS.find_map predMap v = Except.error NotIterator)
    ∧ (∀ fn, JS.flatMap fn v = Except.error NotIterator)
    ∧ JS.flatten v = Except.error NotIterator
    ∧ (∀ fn, JS.tap fn v = Except.error NotIterator)
    ∧ (∀ index, JS.nth index v = Except.error NotIterator)
    ∧ (∀ fn start, JS.fold fn start v = Except.error NotIterator)
    ∧ (∀ fn start, JS.scan fn start v = Except.error NotIterator)
    ∧ (∀ (σ : Type) (pred : σ → Val → σ × Bool) (s : σ),
        JS.skipWhile pred s v = Except.error NotIterator)
    ∧ (∀ num, JS.skip num v = Except.error NotIterator)
    ∧ (∀ w, JS.zip v w = Except.error NotIterator)
    ∧ (∀ w, JS.zip w v = Except.error NotIterator) := by
  have he : ensureIterator v = Except.error NotIterator := ensureIterator_of_not v h
  refine ⟨fun fn => by simp [JS.map, he],
    fun pred => by simp [JS.filter, he],
    fun predMap => by simp [JS.filter_map, he],
    fun pred => by simp [JS.all, he],
    fun pred => by simp [JS.some, he],
    fun w => by simp [JS.chain, he],
    fun w => ?_,
    by simp [JS.collect, he],
    by simp [JS.count, he],
    fun σ pred s => by simp [JS.takeWhile, he],
    fun num => by simp [JS.take, JS.takeWhile, he],
    by simp [JS.cycle, JS.collect, he],
    by simp [JS.enumerate, he],
    fun pred w => by simp [JS.eq_by, he],
    fun pred w => ?_,
    fun w => by simp [JS.eq, JS.eq_by, he],
    fun w => ?_,
    fun pred => by simp [JS.find, he],
    fun predMap => by simp [JS.find_map, he],
    fun fn => by simp [JS.flatMap, he],
    by simp [JS.flatten, JS.flatMap, he],
    fun fn => by simp [JS.tap, he],
    fun index => by simp [JS.nth, he],
    fun fn start => by simp [JS.fold, he],
    fun fn start => by simp [JS.scan, he],
    fun σ pred s => by simp [JS.skipWhile, he],
    fun num => by simp [JS.skip, JS.skipWhile, he],
    fun w => by simp [JS.zip, he],
    fun w => ?_⟩
  · rcases ensureIterator_cases w with hw | hw <;> simp [JS.chain, he, hw]
  · rcases ensureIterator_cases w with hw | hw <;> simp [JS.eq_by, he, hw]
  · rcases ensureIterator_cases w with hw | hw <;> simp [JS.eq, JS.eq_by, he, hw]
  · rcases ensureIterator_cases w with hw | hw <;> simp [JS.zip, he, hw]

theorem eager_reject_witness :
    JS.map (fun x => x) (Val.num 1) = Except.error NotIterator
    ∧ JS.chain (Val.arr []) (Val.num 1) = Except.error NotIterator
    ∧ JS.zip (Val.arr [Val.num 0]) (Val.num 1) = Except.error NotIterator := by
  obtain ⟨h1, h2, h3, h4, h5, h6, h7, h8, h9, h10, h11, h12, h13, h14, h15, h16, h17,
    h18, h19, h20, h21, h22, h23, h24, h25, h26, h27, h28, h29⟩ :=
    eager_reject_spec (Val.num 1) rfl
  exact ⟨h1 _, h7 (Val.arr []), h29 (Val.arr [Val.num 0])⟩

end Thumper
